import Mathlib

/-
Shallow embedding of the jarvis-rs agent orchestration core
(src/error.rs, src/agent/fsm.rs, src/agent/executor.rs, src/mcp/stdio.rs),
together with proofs of the specification claims about it.

Modelling conventions:
* Rust `HashMap<String, V>` values that are only ever read through
  `get`/`insert`/`keys` are modelled as association lists with an
  insert-that-overwrites operation (`insertAssoc`) and a lookup
  (`assocLookup`); `keys()` is the list of first components.
* The async LLM client is modelled as an oracle function from the index of
  the LLM call (0-based) to the call result, mirroring
  `LlmClient::create_chat_completion` returning `Result<ChatCompletionResponse>`.
* MCP tool clients are modelled as functions from a tool-call request to
  `Except String McpToolCallResponse`, mirroring `McpClient::call_tool`.
* `serde_json::Value` payloads (tool schemas, tool arguments) are carried
  opaquely as strings: no modelled behaviour inspects them.  In particular
  the executor parses `tool_call.function.arguments` into a JSON map before
  forwarding it (executor.rs lines 374-383); the model forwards the raw
  argument string, which is equivalent for every property stated here.
* Rust string formatting (`format!`) is modelled by string concatenation,
  with `{:?}` of the fieldless enums rendered by explicit `debugStr`
  functions matching the derived `Debug` output.
-/

namespace Jarvis

/-- Error type of the crate (src/error.rs).  Variants that merely wrap
foreign library error types (`Database`, `Http`, `Serialization`, `Yaml`,
`Io`, `Network`, `AddrParse`, `Uuid`, `OpenAi`) are omitted: none of the
modelled code paths constructs them. -/
inductive Error where
  | Config : String → Error
  | Llm : String → Error
  | Mcp : String → Error
  | Fsm : String → Error
  | InvalidTransition : String → String → Error
  | MaxTurnsExceeded : Nat → Error
  | ToolNotFound : String → Error
  | SessionNotFound : String → Error
  | Internal : String → Error
deriving DecidableEq, Repr

/-- Error::internal helper (src/error.rs line 114). -/
def Error.internal (msg : String) : Error := Error.Internal msg

/-- Error::fsm helper (src/error.rs line 110). -/
def Error.fsm (msg : String) : Error := Error.Fsm msg

/-- Recogniser for the MaxTurnsExceeded variant. -/
def Error.isMaxTurnsExceededB : Error → Bool
  | Error.MaxTurnsExceeded _ => true
  | _ => false

/-- Recogniser for the InvalidTransition variant. -/
def Error.isInvalidTransitionB : Error → Bool
  | Error.InvalidTransition _ _ => true
  | _ => false

/-- Recogniser for the Mcp variant. -/
def Error.isMcpB : Error → Bool
  | Error.Mcp _ => true
  | _ => false

/-- ToolCall function payload (src/llm/types.rs FunctionCall):
name and the JSON-encoded argument string. -/
structure FunctionCall where
  name : String
  arguments : String
deriving DecidableEq, Repr

/-- LLM-issued tool call (src/llm/types.rs ToolCall). -/
structure ToolCall where
  id : String
  function : FunctionCall
deriving DecidableEq, Repr

/-- Chat message (src/llm/types.rs ChatMessage). -/
structure ChatMessage where
  role : String
  content : String
  tool_calls : Option (List ToolCall)
  tool_call_id : Option String
  name : Option String
deriving DecidableEq, Repr

/-- Tool schema function part (src/llm/types.rs Function); the JSON schema
value is carried opaquely. -/
structure Function where
  name : String
  description : String
  parameters : String
deriving DecidableEq, Repr

/-- Tool advertised to the LLM (src/llm/types.rs Tool). -/
structure Tool where
  tool_type : String
  function : Function
deriving DecidableEq, Repr

/-- One choice of an LLM response (src/llm/types.rs Choice). -/
structure Choice where
  index : Nat
  message : ChatMessage
  finish_reason : Option String
deriving DecidableEq, Repr

/-- LLM chat completion response (src/llm/types.rs ChatCompletionResponse);
usage is omitted (never read by the agent). -/
structure ChatCompletionResponse where
  id : String
  model : String
  choices : List Choice
deriving DecidableEq, Repr

/-- MCP content item (src/mcp/client.rs McpContent).  The resource variant
carries its uri and optional text/blob. -/
inductive McpContent where
  | Text : String → McpContent
  | Image : String → String → McpContent
  | Resource : String → Option String → Option String → McpContent
deriving DecidableEq, Repr

/-- MCP tool call request (src/mcp/client.rs McpToolCallRequest); the
argument map is carried as the raw JSON-encoded argument string, see the
file header. -/
structure McpToolCallRequest where
  name : String
  arguments : String
deriving DecidableEq, Repr

/-- MCP tool call response (src/mcp/client.rs McpToolCallResponse). -/
structure McpToolCallResponse where
  content : List McpContent
  is_error : Bool
deriving DecidableEq, Repr

/-! ### FSM (src/agent/fsm.rs) -/

/-- Agent FSM states (src/agent/fsm.rs lines 11-17). -/
inductive AgentState where
  | ReadyToCallLlm
  | AwaitingLlmResponse
  | ExecutingTools
  | Done
  | Error
deriving DecidableEq, Repr

/-- Derived Debug rendering of AgentState, as used by format! in
transition and run_fsm_loop. -/
def AgentState.debugStr : AgentState → String
  | AgentState.ReadyToCallLlm => "ReadyToCallLlm"
  | AgentState.AwaitingLlmResponse => "AwaitingLlmResponse"
  | AgentState.ExecutingTools => "ExecutingTools"
  | AgentState.Done => "Done"
  | AgentState.Error => "Error"

/-- Agent FSM events (src/agent/fsm.rs lines 21-30). -/
inductive AgentEvent where
  | ProcessInput
  | LlmRespondedWithContent
  | LlmRequestedTools
  | ToolsExecutionCompleted
  | ToolsExecutionFailed
  | ErrorOccurred
deriving DecidableEq, Repr

/-- Derived Debug rendering of AgentEvent. -/
def AgentEvent.debugStr : AgentEvent → String
  | AgentEvent.ProcessInput => "ProcessInput"
  | AgentEvent.LlmRespondedWithContent => "LlmRespondedWithContent"
  | AgentEvent.LlmRequestedTools => "LlmRequestedTools"
  | AgentEvent.ToolsExecutionCompleted => "ToolsExecutionCompleted"
  | AgentEvent.ToolsExecutionFailed => "ToolsExecutionFailed"
  | AgentEvent.ErrorOccurred => "ErrorOccurred"

/-- The transition table of AgentStateMachine::transition
(src/agent/fsm.rs lines 154-170), given as the explicit list of
(state, event) pairs that the match accepts, with the successor state.
This is data read off the same match arms that `transition` embeds; it is
used to state claims about pairs that are absent from the table. -/
def transitionTable : List (AgentState × AgentEvent × AgentState) :=
  [ (AgentState.ReadyToCallLlm, AgentEvent.ProcessInput, AgentState.AwaitingLlmResponse),
    (AgentState.AwaitingLlmResponse, AgentEvent.LlmRespondedWithContent, AgentState.Done),
    (AgentState.AwaitingLlmResponse, AgentEvent.LlmRequestedTools, AgentState.ExecutingTools),
    (AgentState.AwaitingLlmResponse, AgentEvent.ErrorOccurred, AgentState.Error),
    (AgentState.ExecutingTools, AgentEvent.ToolsExecutionCompleted, AgentState.ReadyToCallLlm),
    (AgentState.ExecutingTools, AgentEvent.ToolsExecutionFailed, AgentState.Error),
    (AgentState.ExecutingTools, AgentEvent.ErrorOccurred, AgentState.Error),
    (AgentState.ReadyToCallLlm, AgentEvent.ErrorOccurred, AgentState.Error) ]

/-- Whether a (state, event) pair is accepted by the transition table. -/
def allowedTransition (s : AgentState) (e : AgentEvent) : Bool :=
  (transitionTable.filter (fun r => r.1 = s ∧ r.2.1 = e)).length ≠ 0

/-- AgentStateMachine::transition (src/agent/fsm.rs lines 147-197):
returns the successor state, or an Error::fsm for a pair absent from the
match; on error the Rust code returns before `self.state = new_state`, so
the machine state is unchanged. -/
def transition (s : AgentState) (e : AgentEvent) : Except Error AgentState :=
  match s, e with
  | AgentState.ReadyToCallLlm, AgentEvent.ProcessInput =>
      Except.ok AgentState.AwaitingLlmResponse
  | AgentState.AwaitingLlmResponse, AgentEvent.LlmRespondedWithContent =>
      Except.ok AgentState.Done
  | AgentState.AwaitingLlmResponse, AgentEvent.LlmRequestedTools =>
      Except.ok AgentState.ExecutingTools
  | AgentState.AwaitingLlmResponse, AgentEvent.ErrorOccurred =>
      Except.ok AgentState.Error
  | AgentState.ExecutingTools, AgentEvent.ToolsExecutionCompleted =>
      Except.ok AgentState.ReadyToCallLlm
  | AgentState.ExecutingTools, AgentEvent.ToolsExecutionFailed =>
      Except.ok AgentState.Error
  | AgentState.ExecutingTools, AgentEvent.ErrorOccurred =>
      Except.ok AgentState.Error
  | AgentState.ReadyToCallLlm, AgentEvent.ErrorOccurred =>
      Except.ok AgentState.Error
  | _, _ =>
      Except.error (Error.fsm ("Invalid transition from " ++ s.debugStr
        ++ " with event " ++ e.debugStr))

/-- AgentContext (src/agent/fsm.rs lines 34-49). -/
structure AgentContext where
  messages : List ChatMessage
  available_tools : List Tool
  mcp_clients : List (String × String)
  current_turn : Nat
  max_turns : Nat
  pending_tool_calls : List McpToolCallRequest
  tool_call_results : List McpToolCallResponse
  tool_call_id_mapping : List String
  last_error : Option String
  llm_response : Option ChatCompletionResponse
deriving DecidableEq, Repr

/-- AgentContext::new (src/agent/fsm.rs lines 52-69). -/
def AgentContext.new (initial_messages : List ChatMessage)
    (available_tools : List Tool) (mcp_clients : List (String × String)) :
    AgentContext :=
  { messages := initial_messages
    available_tools := available_tools
    mcp_clients := mcp_clients
    current_turn := 0
    max_turns := 10
    pending_tool_calls := []
    tool_call_results := []
    tool_call_id_mapping := []
    last_error := none
    llm_response := none }

/-- AgentStateMachine (src/agent/fsm.rs lines 120-123). -/
structure AgentStateMachine where
  state : AgentState
  context : AgentContext
deriving DecidableEq, Repr

/-- AgentStateMachine::new (src/agent/fsm.rs lines 126-141). -/
def AgentStateMachine.new (initial_messages : List ChatMessage)
    (available_tools : List Tool) (mcp_clients : List (String × String)) :
    AgentStateMachine :=
  { state := AgentState.ReadyToCallLlm
    context := AgentContext.new initial_messages available_tools mcp_clients }

/-- AgentStateMachine::is_terminal (src/agent/fsm.rs lines 199-201). -/
def AgentStateMachine.isTerminalState (s : AgentState) : Bool :=
  s = AgentState.Done ∨ s = AgentState.Error

/-- The observable effect of AgentStateMachine::process_event /
transition on a machine: on success the state field is assigned the new
state, on failure the machine is returned untouched together with the
error (the Rust method returns `Err` before the `self.state = new_state`
assignment). -/
def AgentStateMachine.processEventOrKeep (m : AgentStateMachine)
    (e : AgentEvent) : AgentStateMachine × Option Error :=
  match transition m.state e with
  | Except.ok s => ({ m with state := s }, none)
  | Except.error err => (m, some err)

/-- AgentStateMachine::get_final_content (src/agent/fsm.rs lines 223-229). -/
def getFinalContent (ctx : AgentContext) : String :=
  match ctx.messages.getLast? with
  | some last_message => last_message.content
  | none => ""

/-! ### Association-list model of the HashMaps in Agent -/

/-- Insert-or-overwrite on an association list, modelling
`HashMap::insert`: the binding for an existing key is replaced, a new key
is appended. -/
def insertAssoc {α : Type} : List (String × α) → String → α → List (String × α)
  | [], k, v => [(k, v)]
  | (k2, v2) :: rest, k, v =>
      if k2 = k then (k, v) :: rest else (k2, v2) :: insertAssoc rest k v

/-- Lookup on an association list, modelling `HashMap::get`. -/
def assocLookup {α : Type} : List (String × α) → String → Option α
  | [], _ => none
  | (k2, v) :: rest, k => if k2 = k then some v else assocLookup rest k

/-- Key list of an association list, modelling `HashMap::keys`. -/
def assocKeys {α : Type} (m : List (String × α)) : List String :=
  m.map Prod.fst

/-! ### Tool routing (Agent::new, src/agent/executor.rs lines 38-78) -/

/-- McpTool (src/mcp/client.rs): discovery-time descriptor of a tool. -/
structure McpTool where
  name : String
  description : String
  input_schema : String
deriving DecidableEq, Repr

/-- The Tool pushed onto available_tools for one discovered McpTool
(src/agent/executor.rs lines 56-64). -/
def toLlmTool (tool : McpTool) : Tool :=
  { tool_type := "function",
    function := { name := tool.name,
                  description := tool.description,
                  parameters := tool.input_schema } }

/-- The per-connection registration step of Agent::new
(src/agent/executor.rs lines 42-65): for every discovered tool, insert a
route into the tool-to-client map (overwriting an existing route, with a
logged warning that the model drops) and push the converted tool onto the
aggregated catalog. -/
def registerTools (state : List (String × String) × List Tool)
    (conn : String × List McpTool) : List (String × String) × List Tool :=
  conn.2.foldl
    (fun st tool => (insertAssoc st.1 tool.name conn.1, st.2 ++ [toLlmTool tool]))
    state

/-- The routing state built by the Agent::new loop over the successfully
initialized connections (failed initializations are skipped by the Rust
loop and therefore do not appear in the input list). -/
def buildRouting (conns : List (String × List McpTool)) :
    List (String × String) × List Tool :=
  conns.foldl registerTools ([], [])

/-- The tool-to-client map produced by Agent::new. -/
def buildRoutes (conns : List (String × List McpTool)) :
    List (String × String) :=
  (buildRouting conns).1

/-- The aggregated tool catalog (available_tools names) produced by
Agent::new. -/
def catalogNames (conns : List (String × List McpTool)) : List String :=
  (buildRouting conns).2.map (fun t => t.function.name)

/-- Modelled from the spec (refinement reference for claim C5): the route
of a tool name points at the connection registered last among those whose
tool list contains the name — a connection registered later (further down
the list) takes precedence over every earlier one. -/
def routeSpec (conns : List (String × List McpTool)) (name : String) :
    Option String :=
  match conns with
  | [] => none
  | c :: rest =>
      match routeSpec rest name with
      | some x => some x
      | none => if c.2.any (fun t => t.name = name) then some c.1 else none

/-! ### Tool execution (Agent::execute_mcp_tool, executor.rs lines 594-677) -/

/-- A live MCP client connection, modelled by its call_tool behaviour. -/
def McpClientFun : Type := McpToolCallRequest → Except String McpToolCallResponse

/-- Agent::execute_mcp_tool (src/agent/executor.rs lines 594-677): route
the call through the tool-to-client map; a missing route, a removed
client, and a failing transport call each produce a synthetic
is_error response instead of propagating an error. -/
def executeMcpTool (tool_to_client_map : List (String × String))
    (mcp_clients : List (String × McpClientFun))
    (tool_call : McpToolCallRequest) : McpToolCallResponse :=
  match assocLookup tool_to_client_map tool_call.name with
  | some client_name =>
      match assocLookup mcp_clients client_name with
      | some client =>
          match client tool_call with
          | Except.ok response => response
          | Except.error e =>
              { content := [McpContent.Text ("Error: Tool execution failed: " ++ e)],
                is_error := true }
      | none =>
          { content := [McpContent.Text ("Error: Client \x27" ++ client_name
              ++ "\x27 for tool \x27" ++ tool_call.name
              ++ "\x27 is no longer available")],
            is_error := true }
  | none =>
      { content := [McpContent.Text ("Error: No client mapping found for tool: \x27"
          ++ tool_call.name ++ "\x27. Available tools: "
          ++ String.intercalate (", ") (assocKeys tool_to_client_map))],
        is_error := true }

/-! ### JSON-RPC response handling (StdioMcpClient::send_request,
src/mcp/stdio.rs lines 95-104) -/

/-- A parsed JSON-RPC response as far as send_request inspects it:
the optional error member (rendered by Display for the error message) and
the optional result member (carried opaquely). -/
structure RpcResponse where
  error : Option String
  result : Option String
deriving DecidableEq, Repr

/-- The response-interpretation tail of StdioMcpClient::send_request
(src/mcp/stdio.rs lines 95-104): a present error member fails, then a
missing result member fails, otherwise the result value is returned. -/
def handleRpcResponse (response : RpcResponse) : Except Error String :=
  match response.error with
  | some e => Except.error (Error.Mcp ("MCP stdio error: " ++ e))
  | none =>
      match response.result with
      | some r => Except.ok r
      | none => Except.error (Error.Mcp ("MCP stdio response missing result field"))

/-! ### The driver loop (Agent::run_fsm_loop, executor.rs lines 275-567) -/

/-- The tool-result-to-message conversion loop of the ReadyToCallLlm arm
(src/agent/executor.rs lines 493-518).  The Rust code iterates over the
result buffer with `enumerate` and reads `tool_call_id_mapping.get(index)`;
the model recurses over the results, dropping one mapping entry per result
so that the head of the remaining mapping is exactly the entry at the
current index, and carries the running index for the fallback id string.
A result whose first content item is not Text (or whose content is empty)
produces no message; the index still advances. -/
def toolResultMsgs : Nat → List McpToolCallResponse → List String → List ChatMessage
  | _, [], _ => []
  | index, tool_result :: rest, mapping =>
      match tool_result.content.head? with
      | some (McpContent.Text text) =>
          { role := "tool", content := text, tool_calls := none,
            tool_call_id := some (mapping.headD ("tool_call_" ++ toString index)),
            name := none }
            :: toolResultMsgs (index + 1) rest mapping.tail
      | _ => toolResultMsgs (index + 1) rest mapping.tail

/-- The text of the first content item of a tool result, when that first
item is a Text item — the guard of the conversion loop
(src/agent/executor.rs lines 495-497). -/
def headTextOpt (tool_result : McpToolCallResponse) : Option String :=
  match tool_result.content.head? with
  | some (McpContent.Text text) => some text
  | _ => none

/-- The role=tool message built for one converted tool result
(src/agent/executor.rs lines 510-516). -/
def toolMsgOf (tool_result : McpToolCallResponse) (tool_call_id : String) :
    ChatMessage :=
  { role := "tool", content := (headTextOpt tool_result).getD "",
    tool_calls := none, tool_call_id := some tool_call_id, name := none }

/-- The agent fields consulted by process / run_fsm_loop / execute_mcp_tool
(src/agent/executor.rs lines 15-23); the LLM client handle is modelled
separately as the call oracle. -/
structure AgentModel where
  tool_to_client_map : List (String × String)
  mcp_clients : List (String × McpClientFun)
  available_tools : List Tool
  base_system_prompt : Option String
  discovered_prompts : List String

/-- The default system prompt (src/agent/executor.rs lines 80-81). -/
def defaultSystemPrompt : String :=
  "You are a helpful AI assistant. Please respond to the user\x27s request accurately and concisely."

/-- Agent::build_system_prompt (src/agent/executor.rs lines 569-585). -/
def buildSystemPrompt (agent : AgentModel) : String :=
  String.intercalate ("\n\n")
    ((agent.base_system_prompt.getD defaultSystemPrompt) :: agent.discovered_prompts)

/-- The mutable state threaded through run_fsm_loop: the FSM state, the
context, and an instrumentation counter of how many times
`llm_client.create_chat_completion` has been invoked (the oracle is read
at exactly these points and nowhere else). -/
structure LoopState where
  state : AgentState
  ctx : AgentContext
  llmCalls : Nat
deriving DecidableEq, Repr

/-- The LLM call oracle: result of the n-th create_chat_completion call
of the current process() invocation (0-based). -/
def LlmOracle : Type := Nat → Except String ChatCompletionResponse

/-- fsm.process_event(event, ...).await? as used inside run_fsm_loop: a
transition failure is propagated out of the loop by the question-mark
operator, leaving the machine state untouched. -/
def applyEventE (st : LoopState) (e : AgentEvent) : Except Error LoopState :=
  match transition st.state e with
  | Except.ok s => Except.ok { st with state := s }
  | Except.error err => Except.error err

/-- The content branch of the AwaitingLlmResponse arm
(src/agent/executor.rs lines 402-424): append an assistant message only
when the content is non-empty, then raise LlmRespondedWithContent. -/
def respondWithContent (st : LoopState) (choice : Choice) : Except Error LoopState :=
  let st2 :=
    if choice.message.content = "" then st
    else { st with ctx := { st.ctx with
            messages := st.ctx.messages ++
              [{ role := "assistant", content := choice.message.content,
                 tool_calls := none, tool_call_id := none, name := none }] } }
  applyEventE st2 AgentEvent.LlmRespondedWithContent

/-- The response-processing part of the AwaitingLlmResponse arm
(src/agent/executor.rs lines 349-434): only the first choice is
consulted; a response with tool calls appends the assistant tool-call
message, fills the pending-call buffer and the parallel id mapping, and
raises LlmRequestedTools; no choices raises ErrorOccurred. -/
def processLlmResponse (st : LoopState) (response : ChatCompletionResponse) :
    Except Error LoopState :=
  match response.choices with
  | [] => applyEventE st AgentEvent.ErrorOccurred
  | choice :: _ =>
      match choice.message.tool_calls with
      | some tool_calls =>
          if tool_calls.isEmpty then respondWithContent st choice
          else
            let st2 := { st with ctx := { st.ctx with
              messages := st.ctx.messages ++
                [{ role := "assistant", content := choice.message.content,
                   tool_calls := some tool_calls, tool_call_id := none,
                   name := none }],
              pending_tool_calls := tool_calls.map
                (fun tc => { name := tc.function.name,
                             arguments := tc.function.arguments }),
              tool_call_id_mapping := tool_calls.map (fun tc => tc.id) } }
            applyEventE st2 AgentEvent.LlmRequestedTools
      | none => respondWithContent st choice

/-- One iteration body of the run_fsm_loop while-loop
(src/agent/executor.rs lines 307-530). -/
def stepLoop (agent : AgentModel) (oracle : LlmOracle) (st : LoopState) :
    Except Error LoopState :=
  match st.state with
  | AgentState.AwaitingLlmResponse =>
      match st.ctx.llm_response with
      | none =>
          match oracle st.llmCalls with
          | Except.ok response =>
              let st2 := { st with
                           llmCalls := st.llmCalls + 1,
                           ctx := { st.ctx with llm_response := some response } }
              processLlmResponse st2 response
          | Except.error _ =>
              let st2 := { st with llmCalls := st.llmCalls + 1 }
              applyEventE st2 AgentEvent.ErrorOccurred
      | some response => processLlmResponse st response
  | AgentState.ExecutingTools =>
      let tool_calls := st.ctx.pending_tool_calls
      let results := tool_calls.map
        (executeMcpTool agent.tool_to_client_map agent.mcp_clients)
      let st2 := { st with ctx := { st.ctx with
        tool_call_results := st.ctx.tool_call_results ++ results } }
      applyEventE st2 AgentEvent.ToolsExecutionCompleted
  | AgentState.ReadyToCallLlm =>
      let ctx0 := { st.ctx with llm_response := none }
      let ctx1 :=
        if ctx0.tool_call_results.isEmpty then ctx0
        else
          { ctx0 with
            messages := ctx0.messages ++
              toolResultMsgs 0 ctx0.tool_call_results ctx0.tool_call_id_mapping,
            tool_call_results := [],
            tool_call_id_mapping := [] }
      applyEventE { st with ctx := ctx1 } AgentEvent.ProcessInput
  | _ => Except.ok st

/-- The while-loop of run_fsm_loop with its hard iteration ceiling
(src/agent/executor.rs lines 292-531): the fuel argument counts the
remaining permitted body executions; the Rust loop increments
loop_iteration at the top and breaks once it exceeds 5, which permits
exactly 5 body executions, so the loop is entered with fuel 5. -/
def runLoopAux (agent : AgentModel) (oracle : LlmOracle) :
    Nat → LoopState → Except Error LoopState
  | 0, st => Except.ok st
  | fuel + 1, st =>
      if AgentStateMachine.isTerminalState st.state then Except.ok st
      else
        match stepLoop agent oracle st with
        | Except.ok st2 => runLoopAux agent oracle fuel st2
        | Except.error e => Except.error e

/-- run_fsm_loop up to the final match: send the initial ProcessInput
event, then run the while-loop; the resulting value is the final
LoopState (or a propagated transition error). -/
def runFsmLoopState (agent : AgentModel) (oracle : LlmOracle)
    (ctx0 : AgentContext) : Except Error LoopState :=
  match applyEventE { state := AgentState.ReadyToCallLlm, ctx := ctx0,
                      llmCalls := 0 } AgentEvent.ProcessInput with
  | Except.ok st1 => runLoopAux agent oracle 5 st1
  | Except.error e => Except.error e

/-- The final match of run_fsm_loop (src/agent/executor.rs lines 540-566):
Done yields the final content, Error yields the recorded error (or a
generic internal error), any other state is the internal
unexpected-state error. -/
def finishLoop (st : LoopState) : Except Error String :=
  match st.state with
  | AgentState.Done => Except.ok (getFinalContent st.ctx)
  | AgentState.Error =>
      match st.ctx.last_error with
      | some error => Except.error (Error.internal error)
      | none => Except.error (Error.internal
          ("FSM ended in error state without specific error"))
  | s => Except.error (Error.internal
      ("FSM ended in unexpected state: " ++ s.debugStr))

/-- Agent::run_fsm_loop in full. -/
def runFsmLoopRun (agent : AgentModel) (oracle : LlmOracle)
    (ctx0 : AgentContext) : Except Error String :=
  match runFsmLoopState agent oracle ctx0 with
  | Except.ok st => finishLoop st
  | Except.error e => Except.error e

/-! ### Agent::process (src/agent/executor.rs lines 200-273) -/

/-- The initial transcript built by process: the system prompt (when
non-empty), the prior history of the session (roles and contents
preserved, tool fields cleared), then the new user message. -/
def initialMessages (agent : AgentModel) (previous : List (String × String))
    (input : String) : List ChatMessage :=
  (if buildSystemPrompt agent = "" then []
   else [{ role := "system", content := buildSystemPrompt agent,
           tool_calls := none, tool_call_id := none, name := none }])
  ++ previous.map (fun p => { role := p.1, content := p.2, tool_calls := none,
                              tool_call_id := none, name := none })
  ++ [{ role := "user", content := input, tool_calls := none,
        tool_call_id := none, name := none }]

/-- Agent::process: build the transcript, save the user message to
history, run the FSM loop, and on success save the assistant message.
History effects are modelled as the returned list of new (role, content)
entries appended for this session, in order; the history collaborator is
the in-memory storage, whose save/list never fail.  The FSM is created
with an empty placeholder client map, as in the source (executor.rs
line 262). -/
def process (agent : AgentModel) (oracle : LlmOracle)
    (previous : List (String × String)) (input : String) :
    Except Error String × List (String × String) :=
  let msgs := initialMessages agent previous input
  match runFsmLoopRun agent oracle
      (AgentContext.new msgs agent.available_tools []) with
  | Except.ok result =>
      (Except.ok result, [("user", input), ("assistant", result)])
  | Except.error e => (Except.error e, [("user", input)])

/-! ### Concrete fixtures shared by witnesses and counterexamples -/

/-- A tool-call request for an unregistered tool. -/
def ghostCall : McpToolCallRequest :=
  { name := "ghost_tool", arguments := "" }

/-- An agent with no tool servers and a fixed base system prompt. -/
def agentFx : AgentModel :=
  { tool_to_client_map := [], mcp_clients := [], available_tools := [],
    base_system_prompt := some ("base prompt"), discovered_prompts := [] }

/-- An LLM response whose only choice carries plain content and no tool
calls. -/
def contentResponse (c : String) : ChatCompletionResponse :=
  { id := "resp-1", model := "gpt", choices :=
      [{ index := 0,
         message := { role := "assistant", content := c, tool_calls := none,
                      tool_call_id := none, name := none },
         finish_reason := some ("stop") }] }

/-- An LLM response whose only choice requests the single tool call
`ghost_tool` with id call_1. -/
def toolsResponse : ChatCompletionResponse :=
  { id := "resp-2", model := "gpt", choices :=
      [{ index := 0,
         message := { role := "assistant", content := "",
                      tool_calls := some
                        [{ id := "call_1",
                           function := { name := "ghost_tool",
                                         arguments := "{}" } }],
                      tool_call_id := none, name := none },
         finish_reason := some ("tool_calls") }] }

/-- An FSM machine sitting in the terminal Done state. -/
def machineDone : AgentStateMachine :=
  { state := AgentState.Done, context := AgentContext.new [] [] [] }

/-- A successful tool result whose first content item is text. -/
def textToolResult : McpToolCallResponse :=
  { content := [McpContent.Text ("Sunny, 22 C")], is_error := false }

/-- A tool result with an empty content list (no first content item). -/
def emptyToolResult : McpToolCallResponse :=
  { content := [], is_error := false }

/-- An oracle for paths on which no LLM call may happen. -/
def oracleNever : LlmOracle := fun _ => Except.error ("unused")

/-- A loop state in ReadyToCallLlm right after a tool round: one pending
call, one buffered text result, and its id mapping. -/
def readyStateFx : LoopState :=
  { state := AgentState.ReadyToCallLlm,
    ctx := { AgentContext.new [] [] [] with
             pending_tool_calls := [ghostCall],
             tool_call_results := [textToolResult],
             tool_call_id_mapping := ["call_1"] },
    llmCalls := 1 }

/-! ### Claim C4 -/

/-- Claim C4 (amended): for every machine and event, if the (state, event)
pair is not in the transition table, process_event leaves the machine
unchanged and reports an error — but the error is the stringly
`Error::fsm("Invalid transition from {state} with event {event}")`, not
the structured `InvalidTransition{current, requested}` variant, which the
transition function never constructs.  Every event received in the
terminal states Done and Error is rejected this way. -/
theorem invalid_transition_guard (m : AgentStateMachine) (e : AgentEvent)
    (h : allowedTransition m.state e = false) :
    m.processEventOrKeep e =
      (m, some (Error.fsm ("Invalid transition from " ++ m.state.debugStr
        ++ " with event " ++ e.debugStr)))
    ∧ (∀ e2 : AgentEvent, allowedTransition AgentState.Done e2 = false
        ∧ allowedTransition AgentState.Error e2 = false) := by
  constructor
  · unfold AgentStateMachine.processEventOrKeep
    cases hs : m.state <;> cases e <;>
      simp_all [allowedTransition, transitionTable, transition, Error.fsm,
        AgentState.debugStr, AgentEvent.debugStr]
  · intro e2
    cases e2 <;> simp [allowedTransition, transitionTable]

/-- Witness for C4: the pair (Done, ProcessInput) is not in the table and
is rejected with the state left in Done. -/
theorem invalid_transition_guard_witness :
    allowedTransition machineDone.state AgentEvent.ProcessInput = false
    ∧ machineDone.processEventOrKeep AgentEvent.ProcessInput =
      (machineDone, some (Error.fsm ("Invalid transition from Done with event ProcessInput"))) :=
  ⟨by decide,
    (invalid_transition_guard machineDone AgentEvent.ProcessInput (by decide)).1⟩

/-- Counterexample for C4 as stated: the error produced for an event in a
terminal state is the Fsm string variant; it is not an InvalidTransition
value for any arguments. -/
theorem invalid_transition_guard_cex :
    (machineDone.processEventOrKeep AgentEvent.ProcessInput).2 =
      some (Error.Fsm ("Invalid transition from Done with event ProcessInput"))
    ∧ ((machineDone.processEventOrKeep AgentEvent.ProcessInput).2.map
        Error.isInvalidTransitionB) = some false := by
  constructor <;> decide

/-! ### Claim C3 -/

/-- Claim C3: execute_mcp_tool is total by construction (its result type
is a plain McpToolCallResponse and every branch of the embedded source
returns one, so no error ever reaches the FSM); an unrouted tool name
yields an is_error Text result naming the tool and comma-joining the
currently routed tool names, a removed client yields an is_error Text
result naming the client, and a failing transport call is converted into
an is_error Text result. -/
theorem execute_mcp_tool_total (map : List (String × String))
    (clients : List (String × McpClientFun)) (call : McpToolCallRequest) :
    (assocLookup map call.name = none →
      executeMcpTool map clients call =
        { content := [McpContent.Text ("Error: No client mapping found for tool: \x27"
            ++ call.name ++ "\x27. Available tools: "
            ++ String.intercalate (", ") (assocKeys map))],
          is_error := true })
    ∧ (∀ cn, assocLookup map call.name = some cn →
        assocLookup clients cn = none →
        executeMcpTool map clients call =
          { content := [McpContent.Text ("Error: Client \x27" ++ cn
              ++ "\x27 for tool \x27" ++ call.name
              ++ "\x27 is no longer available")],
            is_error := true })
    ∧ (∀ cn f e, assocLookup map call.name = some cn →
        assocLookup clients cn = some f →
        f call = Except.error e →
        executeMcpTool map clients call =
          { content := [McpContent.Text ("Error: Tool execution failed: " ++ e)],
            is_error := true }) := by
  refine ⟨fun h1 => ?_, fun cn h1 h2 => ?_, fun cn f e h1 h2 h3 => ?_⟩
  · simp [executeMcpTool, h1]
  · simp [executeMcpTool, h1, h2]
  · simp [executeMcpTool, h1, h2, h3]

/-- Witness for C3: calling the unregistered ghost_tool against an agent
with no routes yields the synthetic no-mapping error result. -/
theorem execute_mcp_tool_total_witness :
    assocLookup ([] : List (String × String)) ghostCall.name = none
    ∧ executeMcpTool [] [] ghostCall =
      { content := [McpContent.Text ("Error: No client mapping found for tool: \x27ghost_tool\x27. Available tools: ")],
        is_error := true } :=
  ⟨rfl, (execute_mcp_tool_total [] [] ghostCall).1 rfl⟩

/-! ### Claim C9 -/

/-- Claim C9: the JSON-RPC response interpretation of the stdio
transport fails with an Mcp (transport) error whenever the error member
is present, fails with an Mcp error when the result member is absent, and
returns a value exactly when the result is present and the error absent. -/
theorem rpc_response_contract (resp : RpcResponse) :
    (∀ e, resp.error = some e →
      handleRpcResponse resp = Except.error (Error.Mcp ("MCP stdio error: " ++ e)))
    ∧ (resp.error = none → resp.result = none →
      handleRpcResponse resp =
        Except.error (Error.Mcp ("MCP stdio response missing result field")))
    ∧ (∀ v, handleRpcResponse resp = Except.ok v ↔
        (resp.error = none ∧ resp.result = some v)) := by
  obtain ⟨err, res⟩ := resp
  refine ⟨fun e he => ?_, fun he hr => ?_, fun v => ?_⟩
  · simp at he
    simp [handleRpcResponse, he]
  · simp at he hr
    simp [handleRpcResponse, he, hr]
  · cases err <;> cases res <;>
      simp [handleRpcResponse, eq_comm]

/-- Witness for C9: a response carrying both an error member and a result
member fails with the transport error (error takes precedence). -/
theorem rpc_response_contract_witness :
    ({ error := some ("boom"), result := some ("42") } : RpcResponse).error = some ("boom")
    ∧ handleRpcResponse { error := some ("boom"), result := some ("42") } =
      Except.error (Error.Mcp ("MCP stdio error: boom")) :=
  ⟨rfl, (rpc_response_contract { error := some ("boom"), result := some ("42") }).1 ("boom") rfl⟩

/-! ### Claim C5 -/

theorem assocLookup_insertAssoc {α : Type} (m : List (String × α)) (k : String)
    (v : α) (k' : String) :
    assocLookup (insertAssoc m k v) k' =
      if k = k' then some v else assocLookup m k' := by
  induction m with
  | nil => simp [insertAssoc, assocLookup]
  | cons hd tl ih =>
      obtain ⟨k2, v2⟩ := hd
      by_cases h2 : k2 = k
      · subst h2
        by_cases h3 : k2 = k'
        · subst h3
          simp [insertAssoc, assocLookup]
        · simp [insertAssoc, assocLookup, h3]
      · by_cases h3 : k2 = k'
        · subst h3
          have : ¬ k = k2 := fun h => h2 h.symm
          simp [insertAssoc, assocLookup, h2, this]
        · simp [insertAssoc, assocLookup, h2, h3, ih]

theorem mem_keys_insertAssoc {α : Type} (m : List (String × α)) (k : String)
    (v : α) (k' : String) :
    k' ∈ assocKeys (insertAssoc m k v) ↔ k' ∈ assocKeys m ∨ k' = k := by
  induction m with
  | nil => simp [insertAssoc, assocKeys]
  | cons hd tl ih =>
      obtain ⟨k2, v2⟩ := hd
      by_cases h2 : k2 = k
      · subst h2
        simp [insertAssoc, assocKeys]
        tauto
      · simp [insertAssoc, assocKeys, h2] at ih ⊢
        tauto

theorem nodup_keys_insertAssoc {α : Type} (m : List (String × α)) (k : String)
    (v : α) (h : (assocKeys m).Nodup) :
    (assocKeys (insertAssoc m k v)).Nodup := by
  induction m with
  | nil => simp [insertAssoc, assocKeys]
  | cons hd tl ih =>
      obtain ⟨k2, v2⟩ := hd
      rw [assocKeys] at h
      simp only [List.map_cons, List.nodup_cons] at h
      by_cases h2 : k2 = k
      · subst h2
        have hins : insertAssoc ((k2, v2) :: tl) k2 v = (k2, v) :: tl := by
          simp [insertAssoc]
        rw [hins, assocKeys]
        simp only [List.map_cons, List.nodup_cons]
        exact h
      · have htl := ih h.2
        rw [insertAssoc]
        simp only [if_neg h2, assocKeys, List.map_cons, List.nodup_cons]
        refine ⟨?_, htl⟩
        intro hmem
        rcases (mem_keys_insertAssoc tl k v k2).mp
            (by simpa [assocKeys] using hmem) with hin | heq
        · exact h.1 (by simpa [assocKeys] using hin)
        · exact h2 heq

theorem registerTools_fst (conn : String × List McpTool) :
    ∀ st : List (String × String) × List Tool,
    (registerTools st conn).1 =
      conn.2.foldl (fun m t => insertAssoc m t.name conn.1) st.1 := by
  obtain ⟨cname, ts⟩ := conn
  induction ts with
  | nil => intro st; simp [registerTools]
  | cons t rest ih =>
      intro st
      simpa [registerTools] using ih (insertAssoc st.1 t.name cname, st.2 ++ [toLlmTool t])

theorem registerTools_snd (conn : String × List McpTool) :
    ∀ st : List (String × String) × List Tool,
    (registerTools st conn).2 = st.2 ++ conn.2.map toLlmTool := by
  obtain ⟨cname, ts⟩ := conn
  induction ts with
  | nil => intro st; simp [registerTools]
  | cons t rest ih =>
      intro st
      simpa [registerTools] using ih (insertAssoc st.1 t.name cname, st.2 ++ [toLlmTool t])

theorem lookup_foldl_insert (cname : String) (ts : List McpTool) :
    ∀ (m : List (String × String)) (name : String),
    assocLookup (ts.foldl (fun m t => insertAssoc m t.name cname) m) name =
      if ts.any (fun t => t.name = name) then some cname else assocLookup m name := by
  induction ts with
  | nil => intro m name; simp
  | cons t rest ih =>
      intro m name
      by_cases hrest : rest.any (fun t2 => t2.name = name)
      · simp [ih, hrest]
      · by_cases ht : t.name = name
        · simp [ih, hrest, ht, assocLookup_insertAssoc]
        · simp [ih, hrest, ht, assocLookup_insertAssoc]

theorem nodup_keys_foldl_insert (cname : String) (ts : List McpTool) :
    ∀ m : List (String × String), (assocKeys m).Nodup →
    (assocKeys (ts.foldl (fun m t => insertAssoc m t.name cname) m)).Nodup := by
  induction ts with
  | nil => intro m h; simpa
  | cons t rest ih =>
      intro m h
      exact ih _ (nodup_keys_insertAssoc m t.name cname h)

theorem lookup_foldl_registerTools (conns : List (String × List McpTool)) :
    ∀ (st : List (String × String) × List Tool) (name : String),
    assocLookup ((conns.foldl registerTools st).1) name =
      match routeSpec conns name with
      | some c => some c
      | none => assocLookup st.1 name := by
  induction conns with
  | nil => intro st name; simp [routeSpec]
  | cons c rest ih =>
      intro st name
      have hstep : assocLookup ((registerTools st c).1) name =
          if c.2.any (fun t => t.name = name) then some c.1
          else assocLookup st.1 name := by
        rw [registerTools_fst]
        exact lookup_foldl_insert c.1 c.2 st.1 name
      calc assocLookup (((c :: rest).foldl registerTools st).1) name
      _ = assocLookup ((rest.foldl registerTools (registerTools st c)).1) name := by
            simp
      _ = _ := by
            rw [ih]
            cases hro : routeSpec rest name with
            | some x => simp [routeSpec, hro]
            | none =>
                rw [hstep]
                by_cases hany : c.2.any (fun t => t.name = name)
                · simp [routeSpec, hro, hany]
                · simp [routeSpec, hro, hany]

theorem nodup_keys_foldl_registerTools (conns : List (String × List McpTool)) :
    ∀ st : List (String × String) × List Tool, (assocKeys st.1).Nodup →
    (assocKeys ((conns.foldl registerTools st).1)).Nodup := by
  induction conns with
  | nil => intro st h; simpa
  | cons c rest ih =>
      intro st h
      refine ih _ ?_
      rw [registerTools_fst]
      exact nodup_keys_foldl_insert c.1 c.2 st.1 h

theorem catalog_foldl_registerTools (conns : List (String × List McpTool)) :
    ∀ st : List (String × String) × List Tool,
    (conns.foldl registerTools st).2 =
      st.2 ++ (conns.map (fun c => c.2.map toLlmTool)).flatten := by
  induction conns with
  | nil => intro st; simp
  | cons c rest ih =>
      intro st
      simp [ih, registerTools_snd]

theorem routeSpec_isSome (conns : List (String × List McpTool)) (name : String) :
    (routeSpec conns name).isSome = conns.any (fun c => c.2.any (fun t => t.name = name)) := by
  induction conns with
  | nil => simp [routeSpec]
  | cons c rest ih =>
      cases hro : routeSpec rest name with
      | some x =>
          have h1 : rest.any (fun c => c.2.any (fun t => t.name = name)) = true := by
            rw [← ih, hro]; rfl
          simp [routeSpec, hro, h1]
      | none =>
          by_cases hany : c.2.any (fun t => t.name = name)
          · simp [routeSpec, hro, hany]
          · have h1 : rest.any (fun c => c.2.any (fun t => t.name = name)) = false := by
              rw [← ih, hro]; rfl
            simp [routeSpec, hro, hany, h1]

/-- Claim C5: the tool-to-client map built by the Agent::new registration
loop gives every name in the aggregated catalog exactly one route (the
key list of the map is duplicate-free, and a name has a route exactly
when it occurs in the catalog), and the route is the one described by the
spec-side `routeSpec`: the connection registered last among those that
advertise the name wins a collision. -/
theorem collision_last_wins (conns : List (String × List McpTool)) (name : String) :
    assocLookup (buildRoutes conns) name = routeSpec conns name
    ∧ ((name ∈ catalogNames conns) ↔ (assocLookup (buildRoutes conns) name).isSome)
    ∧ (assocKeys (buildRoutes conns)).Nodup := by
  have hlook : assocLookup (buildRoutes conns) name = routeSpec conns name := by
    rw [buildRoutes, buildRouting, lookup_foldl_registerTools]
    cases routeSpec conns name <;> simp [assocLookup]
  refine ⟨hlook, ?_, ?_⟩
  · rw [hlook]
    rw [catalogNames, buildRouting, catalog_foldl_registerTools]
    rw [routeSpec_isSome]
    simp only [List.nil_append, List.mem_map, List.mem_flatten,
      List.any_eq_true, decide_eq_true_eq, toLlmTool]
    constructor
    · rintro ⟨t, ⟨l, ⟨c, hc, rfl⟩, htl⟩, hname⟩
      obtain ⟨mt, hmt, rfl⟩ := List.mem_map.mp htl
      exact ⟨c, hc, mt, hmt, hname⟩
    · rintro ⟨c, hc, t, ht, hname⟩
      refine ⟨toLlmTool t, ⟨c.2.map toLlmTool, ⟨c, hc, rfl⟩,
        List.mem_map.mpr ⟨t, ht, rfl⟩⟩, ?_⟩
      simpa [toLlmTool] using hname
  · rw [buildRoutes, buildRouting]
    exact nodup_keys_foldl_registerTools conns ([], []) (by simp [assocKeys])

/-! ### Claim C2 -/

theorem toolResultMsgs_zipWith (results : List McpToolCallResponse) :
    ∀ (mapping : List String) (index : Nat),
    results.length ≤ mapping.length →
    (∀ r ∈ results, (headTextOpt r).isSome) →
    toolResultMsgs index results mapping = List.zipWith toolMsgOf results mapping := by
  induction results with
  | nil => intro mapping index _ _; simp [toolResultMsgs]
  | cons r rs ih =>
      intro mapping index hlen htext
      cases mapping with
      | nil => simp at hlen
      | cons m ms =>
          have hr : (headTextOpt r).isSome := htext r (by simp)
          have hrs : ∀ r2 ∈ rs, (headTextOpt r2).isSome :=
            fun r2 h2 => htext r2 (by simp [h2])
          have hlen2 : rs.length ≤ ms.length := by
            simpa using hlen
          cases hh : r.content.head? with
          | none => simp [headTextOpt, hh] at hr
          | some c =>
              cases c with
              | Text t =>
                  have hmsg : toolMsgOf r m =
                      { role := "tool", content := t, tool_calls := none,
                        tool_call_id := some m, name := none } := by
                    simp [toolMsgOf, headTextOpt, hh]
                  simp only [toolResultMsgs, hh, List.headD_cons, List.tail_cons,
                    List.zipWith_cons_cons]
                  rw [ih ms (index + 1) hlen2 hrs, hmsg]
              | Image d mt => simp [headTextOpt, hh] at hr
              | Resource u a b => simp [headTextOpt, hh] at hr

/-- Claim C2 (amended): (i) when every buffered tool result has a Text
first content item and the parallel id mapping is at least as long as the
result buffer, the conversion loop turns the result buffer into exactly
one role=tool message per result, in order, pairing result i with mapping
entry i (the zipWith form); (ii) when the LLM response requests tools,
the id mapping is set to exactly the ids of the tool calls of the
assistant message appended at the same moment, positionally, and the
pending buffer has one entry per tool call.  Together these give the
positional correlation of the claim.  The claim fails as stated for a
result whose first content item is missing or not Text: such a result is
skipped and produces no message (see the counterexample). -/
theorem tool_result_correlation :
    (∀ (results : List McpToolCallResponse) (mapping : List String),
      results.length ≤ mapping.length →
      (∀ r ∈ results, (headTextOpt r).isSome) →
      toolResultMsgs 0 results mapping = List.zipWith toolMsgOf results mapping
      ∧ (List.zipWith toolMsgOf results mapping).length = results.length)
    ∧ (∀ (st : LoopState) (response : ChatCompletionResponse) (choice : Choice)
        (rest2 : List Choice) (tcs : List ToolCall),
      st.state = AgentState.AwaitingLlmResponse →
      response.choices = choice :: rest2 →
      choice.message.tool_calls = some tcs →
      tcs ≠ [] →
      ∃ st2, processLlmResponse st response = Except.ok st2
        ∧ st2.ctx.tool_call_id_mapping = tcs.map ToolCall.id
        ∧ st2.ctx.pending_tool_calls.length = tcs.length
        ∧ st2.ctx.messages = st.ctx.messages ++
            [{ role := "assistant", content := choice.message.content,
               tool_calls := some tcs, tool_call_id := none, name := none }]) := by
  constructor
  · intro results mapping hlen htext
    refine ⟨toolResultMsgs_zipWith results mapping 0 hlen htext, ?_⟩
    simp [List.length_zipWith]
    omega
  · intro st response choice rest2 tcs hstate hchoices htc hne
    have hempty : tcs.isEmpty = false := by
      cases tcs with
      | nil => exact absurd rfl hne
      | cons a b => rfl
    refine ⟨?_, ?_⟩
    · exact { st with
        state := AgentState.ExecutingTools,
        ctx := { st.ctx with
                 messages := st.ctx.messages ++
                   [{ role := "assistant", content := choice.message.content,
                      tool_calls := some tcs, tool_call_id := none, name := none }],
                 pending_tool_calls := tcs.map
                   (fun tc => { name := tc.function.name,
                                arguments := tc.function.arguments }),
                 tool_call_id_mapping := tcs.map ToolCall.id } }
    · simp [processLlmResponse, hchoices, htc, hempty, applyEventE, hstate,
        transition]

/-- Counterexample for C2 as stated: a result buffer containing one tool
result with an empty content list, with its id mapping present, produces
zero role=tool messages — not exactly one message per buffered result. -/
theorem tool_result_correlation_cex :
    toolResultMsgs 0 [emptyToolResult] ["call_1"] = []
    ∧ [emptyToolResult].length = 1 := by
  constructor <;> rfl

/-- Witness for C2: one text result against the one-element mapping
yields exactly the one positionally paired tool message. -/
theorem tool_result_correlation_witness :
    toolResultMsgs 0 [textToolResult] ["call_1"] =
      [{ role := "tool", content := "Sunny, 22 C", tool_calls := none,
         tool_call_id := some ("call_1"), name := none }]
    ∧ (List.zipWith toolMsgOf [textToolResult] ["call_1"]).length = 1 := by
  have h := (tool_result_correlation.1 [textToolResult] ["call_1"]
    (by decide) (by decide))
  refine ⟨?_, h.2⟩
  rw [h.1]
  rfl

/-! ### Claim C7 -/

/-- Claim C7 (amended): after the ReadyToCallLlm arm folds a non-empty
tool-result buffer into the transcript and re-raises ProcessInput, the
tool-result buffer and the tool_call_id_mapping are empty and the stored
LLM response is cleared — but the pending-tool-call buffer is NOT
cleared: it still holds the calls of the completed round (the executor
never invokes AgentContext::clear_tool_calls; the stale pending buffer is
only overwritten when a later response requests tools again). -/
theorem ready_state_buffers (agent : AgentModel) (oracle : LlmOracle)
    (st : LoopState) (hstate : st.state = AgentState.ReadyToCallLlm)
    (hres : st.ctx.tool_call_results ≠ []) :
    stepLoop agent oracle st = Except.ok
      { state := AgentState.AwaitingLlmResponse,
        ctx := { st.ctx with
                 llm_response := none,
                 messages := st.ctx.messages ++
                   toolResultMsgs 0 st.ctx.tool_call_results
                     st.ctx.tool_call_id_mapping,
                 tool_call_results := [],
                 tool_call_id_mapping := [] },
        llmCalls := st.llmCalls } := by
  have hempty : st.ctx.tool_call_results.isEmpty = false := by
    cases h : st.ctx.tool_call_results with
    | nil => exact absurd h hres
    | cons a b => rfl
  obtain ⟨s, ctx, k⟩ := st
  simp only at hstate
  subst hstate
  simp only at hempty
  simp [stepLoop, hempty, applyEventE, transition]

/-- Witness for C7: stepping the concrete post-round ReadyToCallLlm state
folds the result into the transcript, clears the result buffer and the id
mapping, and keeps the pending call. -/
theorem ready_state_buffers_witness :
    stepLoop agentFx oracleNever readyStateFx = Except.ok
      { state := AgentState.AwaitingLlmResponse,
        ctx := { readyStateFx.ctx with
                 llm_response := none,
                 messages := readyStateFx.ctx.messages ++
                   toolResultMsgs 0 readyStateFx.ctx.tool_call_results
                     readyStateFx.ctx.tool_call_id_mapping,
                 tool_call_results := [],
                 tool_call_id_mapping := [] },
        llmCalls := readyStateFx.llmCalls } :=
  ready_state_buffers agentFx oracleNever readyStateFx rfl (by decide)

/-- Counterexample for C7 as stated: after the fold re-enters
AwaitingLlmResponse, the pending-tool-call buffer still holds the
completed round's call — it is not empty as the claim requires. -/
theorem ready_state_buffers_cex :
    (stepLoop agentFx oracleNever readyStateFx).toOption.map
      (fun s => (s.ctx.pending_tool_calls, s.ctx.tool_call_results,
        s.ctx.tool_call_id_mapping)) = some ([ghostCall], [], [])
    ∧ ([ghostCall] : List McpToolCallRequest) ≠ [] := by
  refine ⟨by decide, by decide⟩

/-! ### Loop lemmas shared by the driver-level claims -/

theorem applyEventE_ok (st : LoopState) (e : AgentEvent) (st2 : LoopState)
    (h : applyEventE st e = Except.ok st2) :
    st2.ctx = st.ctx ∧ st2.llmCalls = st.llmCalls := by
  unfold applyEventE at h
  cases ht : transition st.state e with
  | ok s =>
      rw [ht] at h
      simp only [Except.ok.injEq] at h
      subst h
      exact ⟨rfl, rfl⟩
  | error err =>
      rw [ht] at h
      simp at h

theorem transition_error_fsm (s : AgentState) (e : AgentEvent) (err : Error)
    (h : transition s e = Except.error err) : ∃ msg, err = Error.Fsm msg := by
  cases s <;> cases e <;>
    simp only [transition, Error.fsm, Except.error.injEq] at h <;>
    first
      | exact ⟨_, h.symm⟩
      | cases h

theorem applyEventE_err (st : LoopState) (e : AgentEvent) (err : Error)
    (h : applyEventE st e = Except.error err) : ∃ msg, err = Error.Fsm msg := by
  unfold applyEventE at h
  cases ht : transition st.state e with
  | ok s => rw [ht] at h; simp at h
  | error err2 =>
      rw [ht] at h
      simp only [Except.error.injEq] at h
      subst h
      exact transition_error_fsm st.state e err2 ht

theorem respondWithContent_ok (st : LoopState) (choice : Choice) (st2 : LoopState)
    (h : respondWithContent st choice = Except.ok st2) :
    st2.llmCalls = st.llmCalls ∧ st2.ctx.max_turns = st.ctx.max_turns
    ∧ st2.ctx.current_turn = st.ctx.current_turn := by
  unfold respondWithContent at h
  split at h
  · obtain ⟨hctx, hcalls⟩ := applyEventE_ok _ _ _ h
    rw [hctx, hcalls]
    exact ⟨rfl, rfl, rfl⟩
  · obtain ⟨hctx, hcalls⟩ := applyEventE_ok _ _ _ h
    rw [hctx, hcalls]
    exact ⟨rfl, rfl, rfl⟩

theorem respondWithContent_err (st : LoopState) (choice : Choice) (err : Error)
    (h : respondWithContent st choice = Except.error err) :
    ∃ msg, err = Error.Fsm msg := by
  unfold respondWithContent at h
  split at h
  · exact applyEventE_err _ _ _ h
  · exact applyEventE_err _ _ _ h

theorem processLlmResponse_ok (st : LoopState) (response : ChatCompletionResponse)
    (st2 : LoopState) (h : processLlmResponse st response = Except.ok st2) :
    st2.llmCalls = st.llmCalls ∧ st2.ctx.max_turns = st.ctx.max_turns
    ∧ st2.ctx.current_turn = st.ctx.current_turn := by
  obtain ⟨rid, rmodel, rchoices⟩ := response
  cases rchoices with
  | nil =>
      simp only [processLlmResponse] at h
      obtain ⟨hctx, hcalls⟩ := applyEventE_ok _ _ _ h
      rw [hctx, hcalls]
      exact ⟨rfl, rfl, rfl⟩
  | cons choice rest =>
      obtain ⟨cidx, cmsg, cfin⟩ := choice
      obtain ⟨crole, ccontent, ctc, ctcid, cname⟩ := cmsg
      cases ctc with
      | none =>
          simp only [processLlmResponse] at h
          exact respondWithContent_ok _ _ _ h
      | some tcs =>
          simp only [processLlmResponse] at h
          by_cases hemp : tcs.isEmpty
          · rw [if_pos hemp] at h
            exact respondWithContent_ok _ _ _ h
          · rw [if_neg hemp] at h
            obtain ⟨hctx, hcalls⟩ := applyEventE_ok _ _ _ h
            rw [hctx, hcalls]
            exact ⟨rfl, rfl, rfl⟩

theorem processLlmResponse_err (st : LoopState) (response : ChatCompletionResponse)
    (err : Error) (h : processLlmResponse st response = Except.error err) :
    ∃ msg, err = Error.Fsm msg := by
  obtain ⟨rid, rmodel, rchoices⟩ := response
  cases rchoices with
  | nil =>
      simp only [processLlmResponse] at h
      exact applyEventE_err _ _ _ h
  | cons choice rest =>
      obtain ⟨cidx, cmsg, cfin⟩ := choice
      obtain ⟨crole, ccontent, ctc, ctcid, cname⟩ := cmsg
      cases ctc with
      | none =>
          simp only [processLlmResponse] at h
          exact respondWithContent_err _ _ _ h
      | some tcs =>
          simp only [processLlmResponse] at h
          by_cases hemp : tcs.isEmpty
          · rw [if_pos hemp] at h
            exact respondWithContent_err _ _ _ h
          · rw [if_neg hemp] at h
            exact applyEventE_err _ _ _ h

theorem stepLoop_ok (agent : AgentModel) (oracle : LlmOracle) (st st2 : LoopState)
    (h : stepLoop agent oracle st = Except.ok st2) :
    st2.llmCalls ≤ st.llmCalls + 1 ∧ st2.ctx.max_turns = st.ctx.max_turns
    ∧ st2.ctx.current_turn = st.ctx.current_turn := by
  obtain ⟨s, ctx, k⟩ := st
  cases s with
  | AwaitingLlmResponse =>
      simp only [stepLoop] at h
      cases hr : ctx.llm_response with
      | some response =>
          rw [hr] at h
          obtain ⟨h1, h2, h3⟩ := processLlmResponse_ok _ _ _ h
          have h1a : st2.llmCalls = k := h1
          have h2a : st2.ctx.max_turns = ctx.max_turns := h2
          have h3a : st2.ctx.current_turn = ctx.current_turn := h3
          refine ⟨?_, h2a, h3a⟩
          show st2.llmCalls ≤ k + 1
          omega
      | none =>
          rw [hr] at h
          cases ho : oracle k with
          | ok response =>
              rw [ho] at h
              obtain ⟨h1, h2, h3⟩ := processLlmResponse_ok _ _ _ h
              have h1a : st2.llmCalls = k + 1 := h1
              have h2a : st2.ctx.max_turns = ctx.max_turns := h2
              have h3a : st2.ctx.current_turn = ctx.current_turn := h3
              refine ⟨?_, h2a, h3a⟩
              show st2.llmCalls ≤ k + 1
              omega
          | error e =>
              rw [ho] at h
              obtain ⟨hctx, hcalls⟩ := applyEventE_ok _ _ _ h
              have h1a : st2.llmCalls = k + 1 := hcalls
              have h2a : st2.ctx.max_turns = ctx.max_turns := by rw [hctx]
              have h3a : st2.ctx.current_turn = ctx.current_turn := by rw [hctx]
              refine ⟨?_, h2a, h3a⟩
              show st2.llmCalls ≤ k + 1
              omega
  | ExecutingTools =>
      simp only [stepLoop] at h
      obtain ⟨hctx, hcalls⟩ := applyEventE_ok _ _ _ h
      have h1a : st2.llmCalls = k := hcalls
      have h2a : st2.ctx.max_turns = ctx.max_turns := by rw [hctx]
      have h3a : st2.ctx.current_turn = ctx.current_turn := by rw [hctx]
      refine ⟨?_, h2a, h3a⟩
      show st2.llmCalls ≤ k + 1
      omega
  | ReadyToCallLlm =>
      simp only [stepLoop] at h
      obtain ⟨hctx, hcalls⟩ := applyEventE_ok _ _ _ h
      have h1a : st2.llmCalls = k := hcalls
      refine ⟨by show st2.llmCalls ≤ k + 1; omega, ?_, ?_⟩
      · show st2.ctx.max_turns = ctx.max_turns
        rw [hctx]
        split <;> rfl
      · show st2.ctx.current_turn = ctx.current_turn
        rw [hctx]
        split <;> rfl
  | Done =>
      simp only [stepLoop, Except.ok.injEq] at h
      subst h
      exact ⟨by show k ≤ k + 1; omega, rfl, rfl⟩
  | Error =>
      simp only [stepLoop, Except.ok.injEq] at h
      subst h
      exact ⟨by show k ≤ k + 1; omega, rfl, rfl⟩

theorem stepLoop_err (agent : AgentModel) (oracle : LlmOracle) (st : LoopState)
    (err : Error) (h : stepLoop agent oracle st = Except.error err) :
    ∃ msg, err = Error.Fsm msg := by
  obtain ⟨s, ctx, k⟩ := st
  cases s with
  | AwaitingLlmResponse =>
      simp only [stepLoop] at h
      cases hr : ctx.llm_response with
      | some response =>
          rw [hr] at h
          exact processLlmResponse_err _ _ _ h
      | none =>
          rw [hr] at h
          cases ho : oracle k with
          | ok response =>
              rw [ho] at h
              exact processLlmResponse_err _ _ _ h
          | error e =>
              rw [ho] at h
              exact applyEventE_err _ _ _ h
  | ExecutingTools =>
      simp only [stepLoop] at h
      exact applyEventE_err _ _ _ h
  | ReadyToCallLlm =>
      simp only [stepLoop] at h
      exact applyEventE_err _ _ _ h
  | Done => simp [stepLoop] at h
  | Error => simp [stepLoop] at h

theorem runLoopAux_ok (agent : AgentModel) (oracle : LlmOracle) :
    ∀ (fuel : Nat) (st st2 : LoopState),
    runLoopAux agent oracle fuel st = Except.ok st2 →
    st2.llmCalls ≤ st.llmCalls + fuel ∧ st2.ctx.max_turns = st.ctx.max_turns
    ∧ st2.ctx.current_turn = st.ctx.current_turn := by
  intro fuel
  induction fuel with
  | zero =>
      intro st st2 h
      simp only [runLoopAux, Except.ok.injEq] at h
      subst h
      exact ⟨by simp, rfl, rfl⟩
  | succ fuel ih =>
      intro st st2 h
      simp only [runLoopAux] at h
      by_cases hterm : AgentStateMachine.isTerminalState st.state
      · rw [if_pos hterm] at h
        simp only [Except.ok.injEq] at h
        subst h
        exact ⟨by omega, rfl, rfl⟩
      · rw [if_neg hterm] at h
        cases hs : stepLoop agent oracle st with
        | ok st3 =>
            rw [hs] at h
            obtain ⟨h1, h2, h3⟩ := ih st3 st2 h
            obtain ⟨g1, g2, g3⟩ := stepLoop_ok agent oracle st st3 hs
            exact ⟨by omega, by rw [h2, g2], by rw [h3, g3]⟩
        | error e =>
            rw [hs] at h
            simp at h

theorem runLoopAux_err (agent : AgentModel) (oracle : LlmOracle) :
    ∀ (fuel : Nat) (st : LoopState) (err : Error),
    runLoopAux agent oracle fuel st = Except.error err →
    ∃ msg, err = Error.Fsm msg := by
  intro fuel
  induction fuel with
  | zero => intro st err h; simp [runLoopAux] at h
  | succ fuel ih =>
      intro st err h
      simp only [runLoopAux] at h
      by_cases hterm : AgentStateMachine.isTerminalState st.state
      · rw [if_pos hterm] at h; simp at h
      · rw [if_neg hterm] at h
        cases hs : stepLoop agent oracle st with
        | ok st3 =>
            rw [hs] at h
            exact ih st3 err h
        | error e =>
            rw [hs] at h
            simp only [Except.error.injEq] at h
            subst h
            exact stepLoop_err agent oracle st e hs

theorem runLoopAux_terminal (agent : AgentModel) (oracle : LlmOracle)
    (st : LoopState) (hterm : AgentStateMachine.isTerminalState st.state = true) :
    ∀ fuel : Nat, runLoopAux agent oracle fuel st = Except.ok st := by
  intro fuel
  cases fuel with
  | zero => rfl
  | succ fuel => simp [runLoopAux, hterm]

theorem runLoopAux_succ_eq (agent : AgentModel) (oracle : LlmOracle)
    (fuel : Nat) (st : LoopState) :
    runLoopAux agent oracle (fuel + 1) st =
      if AgentStateMachine.isTerminalState st.state then Except.ok st
      else
        match stepLoop agent oracle st with
        | Except.ok st2 => runLoopAux agent oracle fuel st2
        | Except.error e => Except.error e := rfl

theorem finishLoop_err (st : LoopState) (err : Error)
    (h : finishLoop st = Except.error err) : ∃ msg, err = Error.Internal msg := by
  obtain ⟨s, ctx, k⟩ := st
  cases s with
  | Done => simp [finishLoop] at h
  | Error =>
      simp only [finishLoop] at h
      cases hle : ctx.last_error with
      | some e =>
          rw [hle] at h
          simp only [Except.error.injEq] at h
          exact ⟨_, h.symm⟩
      | none =>
          rw [hle] at h
          simp only [Except.error.injEq] at h
          exact ⟨_, h.symm⟩
  | ReadyToCallLlm =>
      simp only [finishLoop, Except.error.injEq] at h
      exact ⟨_, h.symm⟩
  | AwaitingLlmResponse =>
      simp only [finishLoop, Except.error.injEq] at h
      exact ⟨_, h.symm⟩
  | ExecutingTools =>
      simp only [finishLoop, Except.error.injEq] at h
      exact ⟨_, h.symm⟩

theorem getLast_append_singleton {α : Type} (l : List α) (a : α) :
    (l ++ [a]).getLast? = some a := by
  simp

/-- One full run for an oracle whose first answer is a content-only
response: the FSM makes exactly one LLM call, appends the assistant
message exactly when the content is non-empty, and terminates in Done. -/
theorem run_content_first (agent : AgentModel) (ctx0 : AgentContext) (c : String)
    (oracle : LlmOracle) (horacle : oracle 0 = Except.ok (contentResponse c))
    (hllm : ctx0.llm_response = none) :
    runFsmLoopState agent oracle ctx0 = Except.ok
      { state := AgentState.Done,
        ctx := { ctx0 with
                 llm_response := some (contentResponse c),
                 messages := if c = "" then ctx0.messages
                   else ctx0.messages ++
                     [{ role := "assistant", content := c, tool_calls := none,
                        tool_call_id := none, name := none }] },
        llmCalls := 1 } := by
  have h0 : runFsmLoopState agent oracle ctx0 =
      runLoopAux agent oracle 5
        { state := AgentState.AwaitingLlmResponse, ctx := ctx0, llmCalls := 0 } := by
    simp [runFsmLoopState, applyEventE, transition]
  have hstep : stepLoop agent oracle
      { state := AgentState.AwaitingLlmResponse, ctx := ctx0, llmCalls := 0 } =
      Except.ok
        { state := AgentState.Done,
          ctx := { ctx0 with
                   llm_response := some (contentResponse c),
                   messages := if c = "" then ctx0.messages
                     else ctx0.messages ++
                       [{ role := "assistant", content := c, tool_calls := none,
                          tool_call_id := none, name := none }] },
          llmCalls := 1 } := by
    by_cases hc : c = "" <;>
      simp [stepLoop, hllm, horacle, processLlmResponse, contentResponse,
        respondWithContent, applyEventE, transition, hc]
  rw [h0, runLoopAux_succ_eq]
  rw [if_neg (by simp [AgentStateMachine.isTerminalState])]
  rw [hstep]
  exact runLoopAux_terminal agent oracle _ (by simp [AgentStateMachine.isTerminalState]) 4

/-! ### Claim C1 -/

/-- Claim C1 (amended): the number of LLM calls made during one FSM run
never exceeds max_turns — but only because the driver's hard 5-iteration
ceiling bounds the calls at 5 (at most one call per loop iteration) while
the context's max_turns stays at its initial value 10 and current_turn
stays 0: the turn counter is never incremented, the max_turns check is
never performed, and no run can ever fail with MaxTurnsExceeded — every
error surfaced by run_fsm_loop is an Fsm or Internal error.  When the
iteration ceiling halts a tool-calling conversation, the run fails with
the Internal unexpected-state error (see the counterexample), not with
MaxTurnsExceeded as the claim states. -/
theorem turn_budget_invariant (agent : AgentModel) (oracle : LlmOracle)
    (msgs : List ChatMessage) (tools : List Tool)
    (clients : List (String × String)) :
    (∀ st : LoopState,
      runFsmLoopState agent oracle (AgentContext.new msgs tools clients) =
        Except.ok st →
      st.llmCalls ≤ 5 ∧ st.ctx.max_turns = 10 ∧ st.ctx.current_turn = 0
      ∧ st.llmCalls ≤ st.ctx.max_turns)
    ∧ (∀ e : Error,
      runFsmLoopRun agent oracle (AgentContext.new msgs tools clients) =
        Except.error e →
      e.isMaxTurnsExceededB = false) := by
  constructor
  · intro st h
    unfold runFsmLoopState at h
    cases ha : applyEventE
        { state := AgentState.ReadyToCallLlm,
          ctx := AgentContext.new msgs tools clients, llmCalls := 0 }
        AgentEvent.ProcessInput with
    | ok st1 =>
        rw [ha] at h
        obtain ⟨hctx1, hcalls1⟩ := applyEventE_ok _ _ _ ha
        obtain ⟨h1, h2, h3⟩ := runLoopAux_ok agent oracle 5 st1 st h
        have hst1calls : st1.llmCalls = 0 := hcalls1
        have hst1max : st1.ctx.max_turns = 10 := by rw [hctx1]; rfl
        have hst1turn : st1.ctx.current_turn = 0 := by rw [hctx1]; rfl
        have hcallsle : st.llmCalls ≤ 5 := by omega
        have hmax : st.ctx.max_turns = 10 := by rw [h2, hst1max]
        have hturn : st.ctx.current_turn = 0 := by rw [h3, hst1turn]
        exact ⟨hcallsle, hmax, hturn, by omega⟩
    | error e =>
        rw [ha] at h
        simp at h
  · intro e h
    unfold runFsmLoopRun at h
    cases hs : runFsmLoopState agent oracle (AgentContext.new msgs tools clients) with
    | ok st =>
        rw [hs] at h
        obtain ⟨msg, rfl⟩ := finishLoop_err st e h
        rfl
    | error e2 =>
        rw [hs] at h
        have he : e2 = e := by simpa using h
        subst he
        unfold runFsmLoopState at hs
        cases ha : applyEventE
            { state := AgentState.ReadyToCallLlm,
              ctx := AgentContext.new msgs tools clients, llmCalls := 0 }
            AgentEvent.ProcessInput with
        | ok st1 =>
            rw [ha] at hs
            obtain ⟨msg, rfl⟩ := runLoopAux_err agent oracle 5 st1 e2 hs
            rfl
        | error e3 =>
            rw [ha] at hs
            have he3 : e3 = e2 := by simpa using hs
            subst he3
            obtain ⟨msg, rfl⟩ := applyEventE_err _ _ _ ha
            rfl

/-- Witness for C1: with an LLM client that fails its first call against
the empty agent, the run makes one LLM call, stays within the 10-turn
budget, and the surfaced error is not MaxTurnsExceeded. -/
theorem turn_budget_invariant_witness :
    ({ state := AgentState.Error, ctx := AgentContext.new [] [] [],
       llmCalls := 1 } : LoopState).llmCalls ≤ 5
    ∧ ({ state := AgentState.Error, ctx := AgentContext.new [] [] [],
         llmCalls := 1 } : LoopState).ctx.max_turns = 10
    ∧ (Error.Internal ("FSM ended in error state without specific error")).isMaxTurnsExceededB
        = false := by
  have h := (turn_budget_invariant agentFx oracleNever [] [] []).1
    { state := AgentState.Error, ctx := AgentContext.new [] [] [], llmCalls := 1 }
    rfl
  refine ⟨h.1, h.2.1, ?_⟩
  exact (turn_budget_invariant agentFx oracleNever [] [] []).2
    (Error.Internal ("FSM ended in error state without specific error")) rfl

/-- Counterexample for C1 as stated: an LLM that requests a tool call on
every response drives the loop into the driver's iteration ceiling; the
run then fails with the Internal unexpected-state error — not with a
MaxTurnsExceeded error as the claim requires — even though only 2 LLM
calls were made against a max_turns of 10. -/
theorem turn_budget_invariant_cex :
    (process agentFx (fun _ => Except.ok toolsResponse) [] "hi").1 =
      Except.error (Error.Internal ("FSM ended in unexpected state: ReadyToCallLlm"))
    ∧ (Error.Internal ("FSM ended in unexpected state: ReadyToCallLlm")).isMaxTurnsExceededB
        = false := by
  refine ⟨rfl, rfl⟩

/-! ### Claim C6 -/

/-- Claim C6: when the FSM run ends in Done, process persists the final
content as the assistant history entry and returns it; when the run ends
in Error, process returns the recorded error wrapped as an Internal
error — defaulting to the generic message when no error was recorded —
and the only history entry written is the user message (no assistant
entry). -/
theorem terminal_state_outcome (agent : AgentModel) (oracle : LlmOracle)
    (previous : List (String × String)) (input : String) (st : LoopState)
    (hrun : runFsmLoopState agent oracle
      (AgentContext.new (initialMessages agent previous input)
        agent.available_tools []) = Except.ok st) :
    (st.state = AgentState.Done →
      process agent oracle previous input =
        (Except.ok (getFinalContent st.ctx),
          [("user", input), ("assistant", getFinalContent st.ctx)]))
    ∧ (st.state = AgentState.Error →
      process agent oracle previous input =
        (Except.error (Error.internal
          (st.ctx.last_error.getD ("FSM ended in error state without specific error"))),
          [("user", input)])) := by
  constructor
  · intro hdone
    have hfin : finishLoop st = Except.ok (getFinalContent st.ctx) := by
      unfold finishLoop
      rw [hdone]
    simp [process, runFsmLoopRun, hrun, hfin]
  · intro herr
    have hfin : finishLoop st = Except.error (Error.internal
        (st.ctx.last_error.getD ("FSM ended in error state without specific error"))) := by
      unfold finishLoop
      rw [herr]
      cases hle : st.ctx.last_error <;> simp
    simp [process, runFsmLoopRun, hrun, hfin]

/-- Witness for C6: the failing-LLM run ends in Error with no recorded
error; process surfaces the generic internal error and the new history
holds only the user entry. -/
theorem terminal_state_outcome_witness :
    process agentFx oracleNever [] "hi" =
      (Except.error (Error.Internal ("FSM ended in error state without specific error")),
        [("user", "hi")]) := by
  have h := (terminal_state_outcome agentFx oracleNever [] "hi"
    { state := AgentState.Error,
      ctx := AgentContext.new (initialMessages agentFx [] "hi")
        agentFx.available_tools [],
      llmCalls := 1 } rfl).2 rfl
  simpa using h

/-! ### Claim C8 -/

/-- Claim C8: the user message is saved to history before the FSM is
constructed and driven — whatever the FSM run produces, the first new
history entry is the user message, so a failed run still leaves the user
input persisted; and in the single content-only-turn success case the new
history is exactly the user entry followed by the assistant entry. -/
theorem user_message_persisted_first (agent : AgentModel) (oracle : LlmOracle)
    (previous : List (String × String)) (input : String) :
    (process agent oracle previous input).2.head? = some ("user", input)
    ∧ (∀ c : String, ¬ c = "" →
      process agent (fun _ => Except.ok (contentResponse c)) previous input =
        (Except.ok c, [("user", input), ("assistant", c)])) := by
  constructor
  · cases hr : runFsmLoopRun agent oracle
        (AgentContext.new (initialMessages agent previous input)
          agent.available_tools []) with
    | ok r => simp [process, hr]
    | error e => simp [process, hr]
  · intro c hc
    have hrun := run_content_first agent
      (AgentContext.new (initialMessages agent previous input)
        agent.available_tools []) c
      (fun _ => Except.ok (contentResponse c)) rfl rfl
    have hrun2 : runFsmLoopRun agent (fun _ => Except.ok (contentResponse c))
        (AgentContext.new (initialMessages agent previous input)
          agent.available_tools []) = Except.ok c := by
      unfold runFsmLoopRun
      rw [hrun]
      simp [finishLoop, getFinalContent, if_neg hc, getLast_append_singleton]
    simp [process, hrun2]

/-- Witness for C8: scenario A — the LLM answers a plain non-empty
content and the new history is exactly the user entry then the assistant
entry. -/
theorem user_message_persisted_first_witness :
    process agentFx (fun _ => Except.ok (contentResponse ("Hello!"))) [] "hi" =
      (Except.ok ("Hello!"), [("user", "hi"), ("assistant", "Hello!")]) :=
  (user_message_persisted_first agentFx
    (fun _ => Except.ok (contentResponse ("Hello!"))) [] "hi").2 ("Hello!") (by decide)

/-! ### Claim C10 -/

/-- Claim C10: when the first choice of the LLM response has no tool
calls and empty content, no assistant message is appended to the
transcript (the final context's message list is the initial one), the
FSM still reaches Done after one LLM call, and process returns the
content of the last transcript message — the user input — persisting
exactly that text as the assistant history entry. -/
theorem empty_content_final (agent : AgentModel)
    (previous : List (String × String)) (input : String) :
    runFsmLoopState agent (fun _ => Except.ok (contentResponse ""))
      (AgentContext.new (initialMessages agent previous input)
        agent.available_tools []) =
      Except.ok
        { state := AgentState.Done,
          ctx := { AgentContext.new (initialMessages agent previous input)
                     agent.available_tools [] with
                   llm_response := some (contentResponse "") },
          llmCalls := 1 }
    ∧ process agent (fun _ => Except.ok (contentResponse "")) previous input =
        (Except.ok input, [("user", input), ("assistant", input)]) := by
  have hrun := run_content_first agent
    (AgentContext.new (initialMessages agent previous input)
      agent.available_tools []) ""
    (fun _ => Except.ok (contentResponse "")) rfl rfl
  have hlast : (initialMessages agent previous input).getLast? =
      some { role := "user", content := input, tool_calls := none,
             tool_call_id := none, name := none } := by
    unfold initialMessages
    exact getLast_append_singleton _ _
  constructor
  · simpa using hrun
  · have hrun2 : runFsmLoopRun agent (fun _ => Except.ok (contentResponse ""))
        (AgentContext.new (initialMessages agent previous input)
          agent.available_tools []) = Except.ok input := by
      unfold runFsmLoopRun
      rw [hrun]
      simp [finishLoop, getFinalContent, AgentContext.new, hlast]
    simp [process, hrun2]

end Jarvis
